import Mathlib

/-!
Verification of the PortKiller knowledge subsystem.

Shallow embedding of `src/knowledge/{types,learning,ica,storage}.rs`:
pure Rust functions become Lean functions; the mutable `KnowledgeBase`
becomes explicit state passing; the ambient clock (`now_timestamp`) becomes
an explicit `now : Int` parameter; Rust's fallible byte slicing is made
explicit with `Option` (`none` = panic).
-/

namespace PortKiller

/-! ## Association-list model of `HashMap<String, V>` -/

/-- Lookup in the association-list model of `HashMap`: first binding wins. -/
def lookupKey {α : Type} : List (String × α) → String → Option α
  | [], _ => none
  | (k', v) :: rest, k => if k = k' then some v else lookupKey rest k

/-- Remove every binding for a key (`HashMap::remove`). -/
def eraseKey {α : Type} : List (String × α) → String → List (String × α)
  | [], _ => []
  | (k', v) :: rest, k =>
    if k = k' then eraseKey rest k else (k', v) :: eraseKey rest k

/-- `HashMap::insert`: the key maps to exactly the new value afterwards. -/
def insertKey {α : Type} (l : List (String × α)) (k : String) (v : α) :
    List (String × α) :=
  (k, v) :: eraseKey l k

/-- `HashMap::contains_key`. -/
def containsKey {α : Type} (l : List (String × α)) (k : String) : Bool :=
  (lookupKey l k).isSome

/-- Number of bindings carrying a given key. -/
def countKey {α : Type} : List (String × α) → String → Nat
  | [], _ => 0
  | (k', _) :: rest, k => (if k = k' then 1 else 0) + countKey rest k

/-! ## Data model (src/knowledge/types.rs) -/

/-- `ProcessFingerprint` (types.rs).  `container_prefix` is rendered here as
`container_pfx`. -/
structure ProcessFingerprint where
  command : String
  default_port : Option Nat
  project_hash : Option String
  container_pfx : Option String
  deriving DecidableEq, Repr

/-- Render an optional string injectively for the hash-key encoding. -/
def optStr : Option String → String
  | none => "-"
  | some s => "+" ++ s

/-- `ProcessFingerprint::hash_key` (types.rs).  The Rust code feeds the four
fields to `DefaultHasher` and formats the digest; the program relies only on
the key being a deterministic function of the fields, which this encoding
models. -/
def ProcessFingerprint.hash_key (fp : ProcessFingerprint) : String :=
  fp.command ++ "#" ++
    (match fp.default_port with
     | none => "-"
     | some n => toString n) ++ "#" ++
    optStr fp.project_hash ++ "#" ++ optStr fp.container_pfx

/-- `ProcessCategory` (types.rs). -/
inductive ProcessCategory where
  | frontend
  | backend
  | database
  | cache
  | proxy
  | devTool
  | infrastructure
  | unknown
  deriving DecidableEq, Repr

/-- `KnowledgeSource` (types.rs). -/
inductive KnowledgeSource where
  | builtin
  | apiLearned
  | heuristic
  deriving DecidableEq, Repr

/-- `AnalysisContext` (types.rs).  `f32` never occurs here; `u16`/`u32`
become `Nat`.  `container_prefix` is rendered as `container_pfx`. -/
structure AnalysisContext where
  command : String
  port : Option Nat
  project_name : Option String
  container_name : Option String
  container_pfx : Option String
  executable_path : Option String
  working_directory : Option String
  full_command : Option String
  macos_app_name : Option String
  macos_app_kind : Option String
  docker_service : Option String
  docker_project : Option String
  docker_image : Option String
  docker_workdir : Option String
  docker_cmd : Option String
  pid : Option Nat
  deriving DecidableEq, Repr

/-- `KnowledgeEntry` (types.rs).  The `f32` confidence is only ever stored
and copied by the verified code, never computed with, so it is modelled by
`Rat`; timestamps (`i64`) become `Int`. -/
structure KnowledgeEntry where
  fingerprint : ProcessFingerprint
  display_name : String
  description : String
  category : ProcessCategory
  group_id : Option String
  confidence : Rat
  source : KnowledgeSource
  sightings : Nat
  updated_at : Int
  deriving DecidableEq, Repr

/-- `PendingEntry` (types.rs). -/
structure PendingEntry where
  fingerprint : ProcessFingerprint
  sightings : Nat
  first_seen : Int
  last_seen : Int
  context : AnalysisContext
  deriving DecidableEq, Repr

/-- `KnowledgeBase` (types.rs); the two `HashMap`s become association
lists. -/
structure KnowledgeBase where
  version : Nat
  entries : List (String × KnowledgeEntry)
  pending_analysis : List (String × PendingEntry)
  deriving DecidableEq, Repr

/-- `IcaAnalysisResponse` (types.rs). -/
structure IcaAnalysisResponse where
  display_name : String
  description : String
  category : ProcessCategory
  group_hint : Option String
  confidence : Rat
  deriving DecidableEq, Repr

/-- `LearningConfig` (types.rs). -/
structure LearningConfig where
  enabled : Bool
  min_sightings : Nat
  rate_limit_secs : Nat
  max_pending : Nat
  ica_url : String
  setec_url : String
  deriving DecidableEq, Repr

/-! ## Learning operations (src/knowledge/learning.rs) -/

/-- `record_sighting` (learning.rs).  The ambient clock `now_timestamp()` is
the explicit `now`; the mutated `&mut KnowledgeBase` is the first component
of the result, the returned `Option<AnalysisContext>` the second. -/
def record_sighting (kb : KnowledgeBase) (fingerprint : ProcessFingerprint)
    (context : AnalysisContext) (config : LearningConfig) (now : Int) :
    KnowledgeBase × Option AnalysisContext :=
  let hash := fingerprint.hash_key
  match lookupKey kb.entries hash with
  | some entry =>
    ({ kb with
        entries := insertKey kb.entries hash
          { entry with sightings := entry.sightings + 1 } },
     none)
  | none =>
    match lookupKey kb.pending_analysis hash with
    | some pending =>
      let pending' :=
        { pending with sightings := pending.sightings + 1, last_seen := now }
      let kb' :=
        { kb with
            pending_analysis := insertKey kb.pending_analysis hash pending' }
      if config.min_sightings ≤ pending'.sightings then
        (kb', some pending'.context)
      else
        (kb', none)
    | none =>
      if kb.pending_analysis.length < config.max_pending then
        ({ kb with
            pending_analysis := insertKey kb.pending_analysis hash
              { fingerprint := fingerprint
                sightings := 1
                first_seen := now
                last_seen := now
                context := context } },
         none)
      else
        (kb, none)

/-- `store_result` (learning.rs). -/
def store_result (kb : KnowledgeBase) (fingerprint : ProcessFingerprint)
    (response : IcaAnalysisResponse) (source : KnowledgeSource) (now : Int) :
    KnowledgeBase :=
  let hash := fingerprint.hash_key
  let sightings :=
    match lookupKey kb.pending_analysis hash with
    | some p => p.sightings
    | none => 1
  let entry : KnowledgeEntry :=
    { fingerprint := fingerprint
      display_name := response.display_name
      description := response.description
      category := response.category
      group_id := response.group_hint
      confidence := response.confidence
      source := source
      sightings := sightings
      updated_at := now }
  { kb with
      pending_analysis := eraseKey kb.pending_analysis hash
      entries := insertKey kb.entries hash entry }

/-- `cleanup_stale_pending` (learning.rs): retains pending entries with
`last_seen > cutoff` where `cutoff = now - max_age_secs`. -/
def cleanup_stale_pending (kb : KnowledgeBase) (max_age_secs : Int)
    (now : Int) : KnowledgeBase :=
  let cutoff := now - max_age_secs
  { kb with
      pending_analysis :=
        kb.pending_analysis.filter (fun p => decide (cutoff < p.2.last_seen)) }

/-- One call in a sequence of learning operations; each call carries its own
arguments and its own clock reading, so a list of `Op`s models an arbitrary
interleaving of `record_sighting` and `store_result` calls. -/
inductive Op where
  | sight (fingerprint : ProcessFingerprint) (context : AnalysisContext)
      (config : LearningConfig) (now : Int)
  | store (fingerprint : ProcessFingerprint) (response : IcaAnalysisResponse)
      (source : KnowledgeSource) (now : Int)

/-- Apply one learning call to the knowledge base. -/
def applyOp (kb : KnowledgeBase) : Op → KnowledgeBase
  | Op.sight fp ctx cfg now => (record_sighting kb fp ctx cfg now).1
  | Op.store fp resp src now => store_result kb fp resp src now

/-- Apply a sequence of learning calls left to right. -/
def applyOps (ops : List Op) (kb : KnowledgeBase) : KnowledgeBase :=
  List.foldl applyOp kb ops

/-- The mutual-exclusion invariant: no hash key is bound in both `entries`
and `pending_analysis`. -/
def MutexInv (kb : KnowledgeBase) : Prop :=
  ∀ h : String, (lookupKey kb.entries h).isSome →
    (lookupKey kb.pending_analysis h).isSome → False

/-! ## Lemmas about the map model -/

theorem lookup_eraseKey {α : Type} (l : List (String × α)) (k k' : String) :
    lookupKey (eraseKey l k) k' = if k' = k then none else lookupKey l k' := by
  induction l with
  | nil => simp [eraseKey, lookupKey]
  | cons hd tl ih =>
    obtain ⟨a, v⟩ := hd
    simp only [eraseKey, lookupKey]
    split_ifs with h1 h2 h3 <;> simp_all [lookupKey]

theorem lookup_insertKey {α : Type} (l : List (String × α)) (k : String)
    (v : α) (k' : String) :
    lookupKey (insertKey l k v) k' = if k' = k then some v else lookupKey l k' := by
  by_cases hk : k' = k <;> simp [insertKey, lookupKey, hk, lookup_eraseKey]

theorem countKey_eraseKey_self {α : Type} (l : List (String × α)) (k : String) :
    countKey (eraseKey l k) k = 0 := by
  induction l with
  | nil => simp [eraseKey, countKey]
  | cons hd tl ih =>
    obtain ⟨a, v⟩ := hd
    simp only [eraseKey]
    split_ifs with h1 <;> simp_all [countKey]

theorem countKey_insertKey_self {α : Type} (l : List (String × α)) (k : String)
    (v : α) : countKey (insertKey l k v) k = 1 := by
  simp [insertKey, countKey, countKey_eraseKey_self]

/-! ## Branch equations for `record_sighting` -/

theorem record_sighting_known (kb : KnowledgeBase) (fp : ProcessFingerprint)
    (ctx : AnalysisContext) (cfg : LearningConfig) (now : Int)
    (entry : KnowledgeEntry)
    (h1 : lookupKey kb.entries fp.hash_key = some entry) :
    record_sighting kb fp ctx cfg now =
      ({ kb with
          entries := insertKey kb.entries fp.hash_key
            { entry with sightings := entry.sightings + 1 } },
       none) := by
  simp only [record_sighting, h1]

theorem record_sighting_pending (kb : KnowledgeBase) (fp : ProcessFingerprint)
    (ctx : AnalysisContext) (cfg : LearningConfig) (now : Int)
    (p : PendingEntry)
    (h1 : lookupKey kb.entries fp.hash_key = none)
    (h2 : lookupKey kb.pending_analysis fp.hash_key = some p) :
    record_sighting kb fp ctx cfg now =
      ({ kb with
          pending_analysis := insertKey kb.pending_analysis fp.hash_key
            { p with sightings := p.sightings + 1, last_seen := now } },
       if cfg.min_sightings ≤ p.sightings + 1 then some p.context else none) := by
  simp only [record_sighting, h1, h2]
  split <;> rfl

theorem record_sighting_new (kb : KnowledgeBase) (fp : ProcessFingerprint)
    (ctx : AnalysisContext) (cfg : LearningConfig) (now : Int)
    (h1 : lookupKey kb.entries fp.hash_key = none)
    (h2 : lookupKey kb.pending_analysis fp.hash_key = none)
    (h3 : kb.pending_analysis.length < cfg.max_pending) :
    record_sighting kb fp ctx cfg now =
      ({ kb with
          pending_analysis := insertKey kb.pending_analysis fp.hash_key
            { fingerprint := fp, sightings := 1, first_seen := now,
              last_seen := now, context := ctx } },
       none) := by
  simp only [record_sighting, h1, h2, if_pos h3]

theorem record_sighting_full (kb : KnowledgeBase) (fp : ProcessFingerprint)
    (ctx : AnalysisContext) (cfg : LearningConfig) (now : Int)
    (h1 : lookupKey kb.entries fp.hash_key = none)
    (h2 : lookupKey kb.pending_analysis fp.hash_key = none)
    (h3 : ¬ kb.pending_analysis.length < cfg.max_pending) :
    record_sighting kb fp ctx cfg now = (kb, none) := by
  simp only [record_sighting, h1, h2, if_neg h3]

theorem record_sighting_snd_pending (kb : KnowledgeBase)
    (fp : ProcessFingerprint) (ctx : AnalysisContext) (cfg : LearningConfig)
    (now : Int) (p : PendingEntry)
    (h1 : lookupKey kb.entries fp.hash_key = none)
    (h2 : lookupKey kb.pending_analysis fp.hash_key = some p)
    (h3 : cfg.min_sightings ≤ p.sightings + 1) :
    (record_sighting kb fp ctx cfg now).2 = some p.context := by
  rw [record_sighting_pending kb fp ctx cfg now p h1 h2]
  dsimp only
  rw [if_pos h3]

/-! ## Invariant preservation (claim C1) -/

theorem mutexInv_record_sighting (kb : KnowledgeBase)
    (fp : ProcessFingerprint) (ctx : AnalysisContext) (cfg : LearningConfig)
    (now : Int) (hInv : MutexInv kb) :
    MutexInv (record_sighting kb fp ctx cfg now).1 := by
  cases h1 : lookupKey kb.entries fp.hash_key with
  | some entry =>
    rw [record_sighting_known kb fp ctx cfg now entry h1]
    dsimp only
    intro h he hp
    simp only [lookup_insertKey] at he
    by_cases hh : h = fp.hash_key
    · exact hInv h (by rw [hh, h1]; rfl) hp
    · rw [if_neg hh] at he
      exact hInv h he hp
  | none =>
    cases h2 : lookupKey kb.pending_analysis fp.hash_key with
    | some pending =>
      rw [record_sighting_pending kb fp ctx cfg now pending h1 h2]
      dsimp only
      intro h he hp
      simp only [lookup_insertKey] at hp
      by_cases hh : h = fp.hash_key
      · rw [hh, h1] at he; simp at he
      · rw [if_neg hh] at hp
        exact hInv h he hp
    | none =>
      by_cases h3 : kb.pending_analysis.length < cfg.max_pending
      · rw [record_sighting_new kb fp ctx cfg now h1 h2 h3]
        dsimp only
        intro h he hp
        simp only [lookup_insertKey] at hp
        by_cases hh : h = fp.hash_key
        · rw [hh, h1] at he; simp at he
        · rw [if_neg hh] at hp
          exact hInv h he hp
      · rw [record_sighting_full kb fp ctx cfg now h1 h2 h3]
        exact hInv

theorem mutexInv_store_result (kb : KnowledgeBase) (fp : ProcessFingerprint)
    (resp : IcaAnalysisResponse) (src : KnowledgeSource) (now : Int)
    (hInv : MutexInv kb) : MutexInv (store_result kb fp resp src now) := by
  intro h he hp
  simp only [store_result, lookup_insertKey, lookup_eraseKey] at he hp
  by_cases hh : h = fp.hash_key
  · rw [if_pos hh] at hp; simp at hp
  · rw [if_neg hh] at he hp
    exact hInv h he hp

/-- C1: if no fingerprint hash key occurs in both `entries` and
`pending_analysis`, then after any sequence of `record_sighting` and
`store_result` calls, still no hash key occurs in both maps. -/
theorem c1_mutual_exclusion (ops : List Op) (kb : KnowledgeBase)
    (hInv : MutexInv kb) : MutexInv (applyOps ops kb) := by
  induction ops generalizing kb with
  | nil => exact hInv
  | cons op rest ih =>
    show MutexInv (applyOps rest (applyOp kb op))
    apply ih
    cases op with
    | sight fp ctx cfg now => exact mutexInv_record_sighting kb fp ctx cfg now hInv
    | store fp resp src now => exact mutexInv_store_result kb fp resp src now hInv

/-! ## Shared sample values for witnesses -/

/-- Sample fingerprint. -/
def fpNode : ProcessFingerprint :=
  { command := "node", default_port := some 3000, project_hash := none,
    container_pfx := none }

/-- Sample analysis context. -/
def ctxNode : AnalysisContext :=
  { command := "node", port := some 3000, project_name := none,
    container_name := none, container_pfx := none, executable_path := none,
    working_directory := none, full_command := none, macos_app_name := none,
    macos_app_kind := none, docker_service := none, docker_project := none,
    docker_image := none, docker_workdir := none, docker_cmd := none,
    pid := none }

/-- Sample configuration, mirroring the `test_config` of learning.rs. -/
def cfgTest : LearningConfig :=
  { enabled := true, min_sightings := 2, rate_limit_secs := 5,
    max_pending := 10, ica_url := "http://localhost:4000",
    setec_url := "https://setec.example" }

/-- Sample analysis response. -/
def respTest : IcaAnalysisResponse :=
  { display_name := "Node.js", description := "JavaScript runtime",
    category := ProcessCategory.backend, group_hint := none,
    confidence := (9 : Rat) / 10 }

/-- The empty knowledge base. -/
def kbEmpty : KnowledgeBase := { version := 1, entries := [], pending_analysis := [] }

/-- A demo call sequence for the C1 witness. -/
def c1DemoOps : List Op :=
  [Op.sight fpNode ctxNode cfgTest 10,
   Op.sight fpNode ctxNode cfgTest 11,
   Op.store fpNode respTest KnowledgeSource.apiLearned 12]

/-- Witness for C1 at a concrete state and call sequence. -/
theorem c1_mutual_exclusion_witness :
    MutexInv kbEmpty ∧ MutexInv (applyOps c1DemoOps kbEmpty) := by
  have h0 : MutexInv kbEmpty := by
    intro h h1 _
    simp [kbEmpty, lookupKey] at h1
  exact ⟨h0, c1_mutual_exclusion c1DemoOps kbEmpty h0⟩

/-! ## Sighting promotion, frame and store properties (C2, C3, C8, C9) -/

/-- C2: with `min_sightings = 2`, for a fingerprint known in neither map of
a knowledge base whose pending queue is below capacity, the first
`record_sighting` returns `none` and creates a pending entry with
`sightings = 1`, and a second `record_sighting` for the same fingerprint
returns `some` of the accumulated context. -/
theorem c2_sighting_promotion (kb : KnowledgeBase) (fp : ProcessFingerprint)
    (ctx ctx2 : AnalysisContext) (cfg : LearningConfig) (t1 t2 : Int)
    (hmin : cfg.min_sightings = 2)
    (he : lookupKey kb.entries fp.hash_key = none)
    (hp : lookupKey kb.pending_analysis fp.hash_key = none)
    (hlen : kb.pending_analysis.length < cfg.max_pending) :
    (record_sighting kb fp ctx cfg t1).2 = none ∧
    lookupKey (record_sighting kb fp ctx cfg t1).1.pending_analysis fp.hash_key =
      some { fingerprint := fp, sightings := 1, first_seen := t1,
             last_seen := t1, context := ctx } ∧
    (record_sighting (record_sighting kb fp ctx cfg t1).1 fp ctx2 cfg t2).2 =
      some ctx := by
  rw [record_sighting_new kb fp ctx cfg t1 he hp hlen]
  dsimp only
  refine ⟨rfl, by rw [lookup_insertKey, if_pos rfl], ?_⟩
  refine record_sighting_snd_pending _ fp ctx2 cfg t2
    { fingerprint := fp, sightings := 1, first_seen := t1,
      last_seen := t1, context := ctx } he ?_ ?_
  · show lookupKey (insertKey kb.pending_analysis fp.hash_key _) fp.hash_key = _
    rw [lookup_insertKey, if_pos rfl]
  · show cfg.min_sightings ≤ 1 + 1
    omega

/-- Witness for C2 at concrete inputs. -/
theorem c2_sighting_promotion_witness :
    cfgTest.min_sightings = 2 ∧
    lookupKey kbEmpty.entries fpNode.hash_key = none ∧
    lookupKey kbEmpty.pending_analysis fpNode.hash_key = none ∧
    kbEmpty.pending_analysis.length < cfgTest.max_pending ∧
    ((record_sighting kbEmpty fpNode ctxNode cfgTest 1).2 = none ∧
     lookupKey (record_sighting kbEmpty fpNode ctxNode cfgTest 1).1.pending_analysis
         fpNode.hash_key =
       some { fingerprint := fpNode, sightings := 1, first_seen := 1,
              last_seen := 1, context := ctxNode } ∧
     (record_sighting (record_sighting kbEmpty fpNode ctxNode cfgTest 1).1
         fpNode ctxNode cfgTest 2).2 = some ctxNode) :=
  ⟨rfl, rfl, rfl, by decide,
   c2_sighting_promotion kbEmpty fpNode ctxNode ctxNode cfgTest 1 2
     rfl rfl rfl (by decide)⟩

/-- C3: `store_result` removes the pending entry under the fingerprint's
hash key if present, and inserts exactly one `KnowledgeEntry` under that
key, whose sightings equal the removed pending entry's count (1 if none
existed) and whose `updated_at` is the current time. -/
theorem c3_store_result (kb : KnowledgeBase) (fp : ProcessFingerprint)
    (resp : IcaAnalysisResponse) (src : KnowledgeSource) (now : Int) :
    lookupKey (store_result kb fp resp src now).pending_analysis fp.hash_key = none ∧
    countKey (store_result kb fp resp src now).entries fp.hash_key = 1 ∧
    lookupKey (store_result kb fp resp src now).entries fp.hash_key =
      some { fingerprint := fp, display_name := resp.display_name,
             description := resp.description, category := resp.category,
             group_id := resp.group_hint, confidence := resp.confidence,
             source := src,
             sightings :=
               match lookupKey kb.pending_analysis fp.hash_key with
               | some p => p.sightings
               | none => 1,
             updated_at := now } := by
  refine ⟨?_, ?_, ?_⟩ <;>
    simp [store_result, lookup_eraseKey, lookup_insertKey, countKey_insertKey_self]

/-- C8: if a fingerprint has a pending entry, `record_sighting` for that
fingerprint never removes it (only `store_result` does), and — when the
fingerprint is not already an entry — any sighting that brings or keeps the
count at or above `min_sightings` returns `some` of the stored context. -/
theorem c8_pending_not_consumed (kb : KnowledgeBase) (fp : ProcessFingerprint)
    (ctx : AnalysisContext) (cfg : LearningConfig) (now : Int)
    (p : PendingEntry)
    (hp : lookupKey kb.pending_analysis fp.hash_key = some p) :
    (lookupKey (record_sighting kb fp ctx cfg now).1.pending_analysis
        fp.hash_key).isSome = true ∧
    (lookupKey kb.entries fp.hash_key = none →
      cfg.min_sightings ≤ p.sightings + 1 →
      (record_sighting kb fp ctx cfg now).2 = some p.context) := by
  cases h1 : lookupKey kb.entries fp.hash_key with
  | some entry =>
    rw [record_sighting_known kb fp ctx cfg now entry h1]
    dsimp only
    exact ⟨by rw [hp]; rfl, fun hcontra => by simp [h1] at hcontra⟩
  | none =>
    rw [record_sighting_pending kb fp ctx cfg now p h1 hp]
    dsimp only
    constructor
    · rw [lookup_insertKey, if_pos rfl]; rfl
    · intro _ hge
      rw [if_pos hge]

/-- Witness for C8 at concrete inputs. -/
theorem c8_pending_not_consumed_witness :
    lookupKey (record_sighting kbEmpty fpNode ctxNode cfgTest 1).1.pending_analysis
        fpNode.hash_key =
      some { fingerprint := fpNode, sightings := 1, first_seen := 1,
             last_seen := 1, context := ctxNode } ∧
    ((lookupKey (record_sighting
          (record_sighting kbEmpty fpNode ctxNode cfgTest 1).1
          fpNode ctxNode cfgTest 2).1.pending_analysis fpNode.hash_key).isSome = true ∧
     (lookupKey (record_sighting kbEmpty fpNode ctxNode cfgTest 1).1.entries
          fpNode.hash_key = none →
       cfgTest.min_sightings ≤
         ({ fingerprint := fpNode, sightings := 1, first_seen := 1,
            last_seen := 1, context := ctxNode } : PendingEntry).sightings + 1 →
       (record_sighting (record_sighting kbEmpty fpNode ctxNode cfgTest 1).1
           fpNode ctxNode cfgTest 2).2 = some ctxNode)) :=
  ⟨by decide,
   c8_pending_not_consumed (record_sighting kbEmpty fpNode ctxNode cfgTest 1).1
     fpNode ctxNode cfgTest 2
     { fingerprint := fpNode, sightings := 1, first_seen := 1,
       last_seen := 1, context := ctxNode }
     (by decide)⟩

/-- C9: for a fingerprint in neither map, when the pending queue is at or
above capacity, `record_sighting` returns `none` and leaves the knowledge
base entirely unchanged. -/
theorem c9_backpressure_frame (kb : KnowledgeBase) (fp : ProcessFingerprint)
    (ctx : AnalysisContext) (cfg : LearningConfig) (now : Int)
    (he : lookupKey kb.entries fp.hash_key = none)
    (hp : lookupKey kb.pending_analysis fp.hash_key = none)
    (hlen : ¬ kb.pending_analysis.length < cfg.max_pending) :
    record_sighting kb fp ctx cfg now = (kb, none) :=
  record_sighting_full kb fp ctx cfg now he hp hlen

/-- A configuration whose pending capacity is zero, for the C9 witness. -/
def cfgZero : LearningConfig := { cfgTest with max_pending := 0 }

/-- Witness for C9 at concrete inputs. -/
theorem c9_backpressure_frame_witness :
    lookupKey kbEmpty.entries fpNode.hash_key = none ∧
    lookupKey kbEmpty.pending_analysis fpNode.hash_key = none ∧
    ¬ kbEmpty.pending_analysis.length < cfgZero.max_pending ∧
    record_sighting kbEmpty fpNode ctxNode cfgZero 7 = (kbEmpty, none) :=
  ⟨rfl, rfl, by decide,
   c9_backpressure_frame kbEmpty fpNode ctxNode cfgZero 7 rfl rfl (by decide)⟩

/-! ## Staleness cleanup (C4) -/

/-- A pending entry whose `last_seen` lies exactly on the cleanup cutoff. -/
def pendingAtCutoff : PendingEntry :=
  { fingerprint := fpNode, sightings := 1, first_seen := 100,
    last_seen := 100, context := ctxNode }

/-- A knowledge base holding only `pendingAtCutoff`. -/
def kbAtCutoff : KnowledgeBase :=
  { version := 1, entries := [],
    pending_analysis := [(fpNode.hash_key, pendingAtCutoff)] }

/-- C4 counterexample: with `now = 110` and `max_age = 10` the cutoff is
100; the claim says a pending entry with `last_seen` exactly equal to the
cutoff is retained, but `cleanup_stale_pending` retains only
`last_seen > cutoff` and removes it. -/
theorem c4_cutoff_counterexample :
    pendingAtCutoff.last_seen = 110 - 10 ∧
    lookupKey kbAtCutoff.pending_analysis fpNode.hash_key = some pendingAtCutoff ∧
    lookupKey (cleanup_stale_pending kbAtCutoff 10 110).pending_analysis
      fpNode.hash_key = none := by
  refine ⟨rfl, rfl, ?_⟩
  simp [cleanup_stale_pending, kbAtCutoff, lookupKey, pendingAtCutoff]

/-- C4 (amended): `cleanup_stale_pending max_age` retains exactly the
pending bindings whose `last_seen` is strictly after the cutoff
`now - max_age`; a binding with `last_seen` at or before the cutoff — in
particular exactly at the cutoff — is removed. -/
theorem c4_cleanup_boundary (kb : KnowledgeBase) (max_age now : Int)
    (h : String) (p : PendingEntry) :
    (h, p) ∈ (cleanup_stale_pending kb max_age now).pending_analysis ↔
      (h, p) ∈ kb.pending_analysis ∧ now - max_age < p.last_seen := by
  simp [cleanup_stale_pending]

/-! ## Persistence (src/knowledge/storage.rs, claim C5)

`save_knowledge_base` performs `fs::write` to the knowledge path followed by
`fs::set_permissions(0o600)`.  Its effect on the file system is modelled as
a trace of operations; crashes during a (non-atomic) file write leave the
target file in a `torn` state. -/

/-- Possible contents of a file in the crash model. -/
inductive FileContent where
  /-- The previously valid knowledge file, untouched. -/
  | previous
  /-- The file holds a complete serialized knowledge base.  Serialization
  (`serde_json::to_string_pretty`) is injective, so the payload is carried
  as the `KnowledgeBase` itself. -/
  | full (kb : KnowledgeBase)
  /-- A crash happened in the middle of writing this file: corrupted. -/
  | torn
  /-- The file does not exist (e.g. it was renamed away). -/
  | absent
  deriving DecidableEq, Repr

/-- File-system operations issued by the storage layer. -/
inductive FsOp where
  | writeFile (path : String) (kb : KnowledgeBase)
  | renameFile (src dst : String)
  | setPerm (path : String) (mode : Nat)
  deriving DecidableEq, Repr

/-- File-system state: contents and permissions per path. -/
structure FsState where
  files : String → FileContent
  perms : String → Option Nat

/-- The knowledge file path (`~/.portkiller-knowledge.json`). -/
def knowledge_path : String := ".portkiller-knowledge.json"

/-- `save_knowledge_base` (storage.rs): serialize, `fs::write` directly to
the knowledge path, then set permissions to `0o600`.  There is no temporary
file and no rename. -/
def save_knowledge_base (kb : KnowledgeBase) : List FsOp :=
  [FsOp.writeFile knowledge_path kb, FsOp.setPerm knowledge_path 0o600]

/-- Effect of one completed file-system operation. -/
def applyFsOp (s : FsState) : FsOp → FsState
  | FsOp.writeFile p kb =>
    { s with files := fun q => if q = p then FileContent.full kb else s.files q }
  | FsOp.renameFile src dst =>
    { s with files := fun q =>
        if q = dst then s.files src
        else if q = src then FileContent.absent
        else s.files q }
  | FsOp.setPerm p m =>
    { s with perms := fun q => if q = p then some m else s.perms q }

/-- State observable when a crash interrupts an operation: an in-place file
write may be half done (`torn`); rename and chmod are atomic. -/
def midFsOp (s : FsState) : FsOp → FsState
  | FsOp.writeFile p _ =>
    { s with files := fun q => if q = p then FileContent.torn else s.files q }
  | FsOp.renameFile _ _ => s
  | FsOp.setPerm _ _ => s

/-- Run a trace of file-system operations to completion. -/
def runFsOps (ops : List FsOp) (s : FsState) : FsState :=
  List.foldl applyFsOp s ops

/-- Every state observable if the process crashes at some point during the
trace (before, during, or between operations). -/
def crashStates : List FsOp → FsState → List FsState
  | [], s => [s]
  | op :: rest, s => s :: midFsOp s op :: crashStates rest (applyFsOp s op)

/-- Initial file system: the knowledge path holds the previously valid
file. -/
def initFs : FsState :=
  { files := fun _ => FileContent.previous, perms := fun _ => none }

/-- C5 counterexample: a crash in the middle of `save_knowledge_base`'s
write leaves the previously valid knowledge file corrupted (torn), because
the code writes in place rather than write-then-rename. -/
theorem c5_torn_counterexample :
    midFsOp initFs (FsOp.writeFile knowledge_path kbEmpty) ∈
      crashStates (save_knowledge_base kbEmpty) initFs ∧
    (midFsOp initFs (FsOp.writeFile knowledge_path kbEmpty)).files
      knowledge_path = FileContent.torn := by
  constructor
  · simp [save_knowledge_base, crashStates]
  · simp [midFsOp, initFs]

/-- C5 (amended): `save_knowledge_base` writes the serialized knowledge
base directly to the knowledge file — a plain in-place write followed by a
chmod, with no rename step, so the write is not atomic — and on successful
completion the file holds the new contents with owner-only (0600)
permissions. -/
theorem c5_direct_write (kb : KnowledgeBase) :
    save_knowledge_base kb =
      [FsOp.writeFile knowledge_path kb, FsOp.setPerm knowledge_path 0o600] ∧
    (runFsOps (save_knowledge_base kb) initFs).files knowledge_path =
      FileContent.full kb ∧
    (runFsOps (save_knowledge_base kb) initFs).perms knowledge_path =
      some 0o600 := by
  refine ⟨rfl, ?_, ?_⟩ <;>
    simp [save_knowledge_base, runFsOps, applyFsOp]

/-! ## JSON extraction (src/knowledge/ica.rs, claims C6 and C10)

Rust strings are modelled as `List Char` together with explicit UTF-8 byte
accounting.  `str::find`/`rfind` return byte indices in Rust; positions of
pattern occurrences are the same positions whether counted in bytes or in
characters, so occurrence-finding is modelled with character indices, while
the byte-indexed slicing done by `extract_json` with the *character* index
returned by `find_matching_brace` is modelled exactly, via `byteTake`
(`none` = the slice end is not a character boundary or is out of range,
which makes the Rust code panic). -/

/-- Take exactly `n` UTF-8 bytes from the front of a character list —
Rust's `&s[..n]`.  `none` when `n` is not a character boundary or exceeds
the string, in which case Rust panics. -/
def byteTake : Nat → List Char → Option (List Char)
  | 0, _ => some []
  | _ + 1, [] => none
  | n + 1, c :: cs =>
    if c.utf8Size ≤ n + 1 then
      (byteTake (n + 1 - c.utf8Size) cs).map (fun t => c :: t)
    else none

/-- Result of `extract_json`: `ok` for `Ok(String)`, `jsonError` for the
`anyhow::bail!("No valid JSON found...")` path, `panicked` for an
out-of-bounds or non-boundary byte slice. -/
inductive ExtractResult where
  | ok (s : List Char)
  | jsonError
  | panicked
  deriving DecidableEq, Repr

/-- `str::trim` (leading and trailing whitespace removed). -/
def trimList (s : List Char) : List Char :=
  ((s.dropWhile Char.isWhitespace).reverse.dropWhile Char.isWhitespace).reverse

/-- The scanning loop of `find_matching_brace` (ica.rs): position `i`,
brace `depth`, `inStr` for being inside a quoted string, `esc` for a
pending backslash escape. -/
def fmbAux : List Char → Nat → Int → Bool → Bool → Option Nat
  | [], _, _, _, _ => none
  | c :: cs, i, depth, inStr, esc =>
    if esc then fmbAux cs (i + 1) depth inStr false
    else if c = '\\' ∧ inStr then fmbAux cs (i + 1) depth inStr true
    else if c = '"' then fmbAux cs (i + 1) depth (!inStr) false
    else if c = '{' ∧ ¬ inStr then fmbAux cs (i + 1) (depth + 1) inStr false
    else if c = '}' ∧ ¬ inStr then
      if depth - 1 = 0 then some i else fmbAux cs (i + 1) (depth - 1) inStr false
    else fmbAux cs (i + 1) depth inStr false

/-- `find_matching_brace` (ica.rs): index of the brace closing the first
top-level `{`, skipping braces inside quoted strings.  Note: this is a
*character* index (Rust iterates `s.chars().enumerate()`), which the caller
then uses as a *byte* index. -/
def find_matching_brace (s : List Char) : Option Nat :=
  fmbAux s 0 0 false false

/-- Boolean prefix test on character lists. -/
def isPre : List Char → List Char → Bool
  | [], _ => true
  | _ :: _, [] => false
  | a :: as, b :: bs => a = b && isPre as bs

/-- `str::find(pattern)`: position of the first occurrence. -/
def findPat (pat : List Char) : List Char → Option Nat
  | [] => if isPre pat [] then some 0 else none
  | c :: cs =>
    if isPre pat (c :: cs) then some 0 else (findPat pat cs).map (· + 1)

/-- `str::rfind(pattern)`: position of the last occurrence. -/
def rfindPat (pat : List Char) : List Char → Option Nat
  | [] => if isPre pat [] then some 0 else none
  | c :: cs =>
    match rfindPat pat cs with
    | some i => some (i + 1)
    | none => if isPre pat (c :: cs) then some 0 else none

/-- Whether the pattern occurs anywhere in the list. -/
def hasPat (pat : List Char) : List Char → Bool
  | [] => isPre pat []
  | c :: cs => isPre pat (c :: cs) || hasPat pat cs

/-- `str::find(char)`. -/
def findChar (c : Char) : List Char → Option Nat
  | [] => none
  | x :: xs => if x = c then some 0 else (findChar c xs).map (· + 1)

/-- The "```json" opening-fence pattern of ica.rs. -/
def fence_json : List Char := "```json".data

/-- The "```\n" closing pattern searched first by ica.rs. -/
def fence_close_nl : List Char := "```\x0a".data

/-- The bare "```" pattern searched backwards by ica.rs. -/
def fence_close : List Char := "```".data

/-- Last resort of `extract_json` (ica.rs): find the first `{`, match
braces in the suffix, and slice — with the character index used as a byte
count. -/
def ej_step3 (trimmed : List Char) : ExtractResult :=
  match findChar '{' trimmed with
  | none => ExtractResult.jsonError
  | some cs =>
    match find_matching_brace (trimmed.drop cs) with
    | none => ExtractResult.jsonError
    | some e =>
      match byteTake (e + 1) (trimmed.drop cs) with
      | some sl => ExtractResult.ok sl
      | none => ExtractResult.panicked

/-- Markdown code-fence branch of `extract_json` (ica.rs); falls through to
`ej_step3` when it does not produce a block. -/
def ej_step2 (trimmed : List Char) : ExtractResult :=
  match findPat fence_json trimmed with
  | none => ej_step3 trimmed
  | some start =>
    match
      (match findPat fence_close_nl (trimmed.drop start) with
       | some e => some e
       | none => rfindPat fence_close (trimmed.drop start)) with
    | none => ej_step3 trimmed
    | some e =>
      let json_start := start + 7
      let json_end := start + e
      if json_start < json_end then
        ExtractResult.ok
          (trimList ((trimmed.drop json_start).take (json_end - json_start)))
      else ej_step3 trimmed

/-- First branch of `extract_json` (ica.rs): if the trimmed text starts
with `{`, slice up to the matching brace — using the character index from
`find_matching_brace` as a byte count. -/
def ej_step1 (trimmed : List Char) : ExtractResult :=
  if trimmed.head? = some '{' then
    match find_matching_brace trimmed with
    | none => ej_step2 trimmed
    | some e =>
      match byteTake (e + 1) trimmed with
      | some sl => ExtractResult.ok sl
      | none => ExtractResult.panicked
  else ej_step2 trimmed

/-- `extract_json` (ica.rs). -/
def extract_json (text : List Char) : ExtractResult :=
  ej_step1 (trimList text)

/-! ## Lemmas about scanning and trimming -/

theorem mem_of_mem_dropWhile {α : Type} (p : α → Bool) :
    ∀ {l : List α} {x : α}, x ∈ l.dropWhile p → x ∈ l := by
  intro l
  induction l with
  | nil => intro x h; simp at h
  | cons c cs ih =>
    intro x h
    by_cases hc : p c
    · simp only [List.dropWhile_cons, hc, if_true] at h
      exact List.mem_cons_of_mem c (ih h)
    · simp only [List.dropWhile_cons, hc, if_false] at h
      simpa using h

theorem mem_trimList (s : List Char) (x : Char) (h : x ∈ trimList s) :
    x ∈ s := by
  unfold trimList at h
  rw [List.mem_reverse] at h
  have h1 := mem_of_mem_dropWhile _ h
  rw [List.mem_reverse] at h1
  exact mem_of_mem_dropWhile _ h1

theorem isPre_append {p : List Char} :
    ∀ {l t : List Char}, isPre p l = true → isPre p (l ++ t) = true := by
  induction p with
  | nil => intro l t _; rfl
  | cons a as ih =>
    intro l t h
    cases l with
    | nil => simp [isPre] at h
    | cons b bs =>
      simp only [isPre, Bool.and_eq_true, decide_eq_true_eq] at h
      simp only [List.cons_append, isPre, Bool.and_eq_true, decide_eq_true_eq]
      exact ⟨h.1, ih h.2⟩

theorem hasPat_nil_pat : ∀ (l : List Char), hasPat [] l = true
  | [] => rfl
  | _ :: _ => rfl

theorem hasPat_cons_false {pat : List Char} {c : Char} {cs : List Char}
    (h : hasPat pat (c :: cs) = false) : hasPat pat cs = false := by
  cases hb : hasPat pat cs with
  | false => rfl
  | true => simp [hasPat, hb] at h

theorem hasPat_head_false {pat : List Char} {c : Char} {cs : List Char}
    (h : hasPat pat (c :: cs) = false) : isPre pat (c :: cs) = false := by
  cases hb : isPre pat (c :: cs) with
  | false => rfl
  | true => simp [hasPat, hb] at h

theorem hasPat_append_right {pat : List Char} :
    ∀ {l t : List Char}, hasPat pat l = true → hasPat pat (l ++ t) = true := by
  intro l
  induction l with
  | nil =>
    intro t h
    cases pat with
    | nil => exact hasPat_nil_pat t
    | cons a as => simp [hasPat, isPre] at h
  | cons c cs ih =>
    intro t h
    simp only [hasPat, Bool.or_eq_true] at h
    simp only [List.cons_append, hasPat, Bool.or_eq_true]
    rcases h with h | h
    · exact Or.inl (isPre_append h)
    · exact Or.inr (ih h)

theorem hasPat_suffix_false {pat : List Char} :
    ∀ {l t : List Char}, hasPat pat (l ++ t) = false → hasPat pat t = false := by
  intro l
  induction l with
  | nil => intro t h; exact h
  | cons c cs ih => intro t h; exact ih (hasPat_cons_false h)

theorem hasPat_prefix_false {pat l t : List Char}
    (h : hasPat pat (l ++ t) = false) : hasPat pat l = false := by
  cases hb : hasPat pat l with
  | false => rfl
  | true => rw [hasPat_append_right hb] at h; cases h

theorem dropWhile_decomp (p : Char → Bool) :
    ∀ (l : List Char), ∃ t, l = t ++ l.dropWhile p := by
  intro l
  induction l with
  | nil => exact ⟨[], rfl⟩
  | cons c cs ih =>
    by_cases hc : p c
    · obtain ⟨t, ht⟩ := ih
      refine ⟨c :: t, ?_⟩
      simp only [List.dropWhile_cons, hc, if_true, List.cons_append]
      rw [← ht]
    · exact ⟨[], by simp [List.dropWhile_cons, hc]⟩

theorem hasPat_dropWhile_false {pat : List Char} (p : Char → Bool)
    {l : List Char} (h : hasPat pat l = false) :
    hasPat pat (l.dropWhile p) = false := by
  obtain ⟨t, ht⟩ := dropWhile_decomp p l
  rw [ht] at h
  exact hasPat_suffix_false h

theorem hasPat_trimList_false {pat s : List Char}
    (h : hasPat pat s = false) : hasPat pat (trimList s) = false := by
  unfold trimList
  have h1 : hasPat pat (s.dropWhile Char.isWhitespace) = false :=
    hasPat_dropWhile_false _ h
  obtain ⟨t, ht⟩ :=
    dropWhile_decomp Char.isWhitespace (s.dropWhile Char.isWhitespace).reverse
  have hm2 : s.dropWhile Char.isWhitespace =
      ((s.dropWhile Char.isWhitespace).reverse.dropWhile Char.isWhitespace).reverse
        ++ t.reverse := by
    have hrev := congrArg List.reverse ht
    simpa [List.reverse_append] using hrev
  rw [hm2] at h1
  exact hasPat_prefix_false h1

theorem findPat_eq_none {pat : List Char} :
    ∀ {l : List Char}, hasPat pat l = false → findPat pat l = none := by
  intro l
  induction l with
  | nil =>
    intro h
    simp only [hasPat] at h
    simp [findPat, h]
  | cons c cs ih =>
    intro h
    have h1 := hasPat_head_false h
    have h2 := hasPat_cons_false h
    simp [findPat, h1, ih h2]

theorem findChar_eq_none {c : Char} :
    ∀ {l : List Char}, c ∉ l → findChar c l = none := by
  intro l
  induction l with
  | nil => intro _; rfl
  | cons x xs ih =>
    intro h
    simp only [List.mem_cons, not_or] at h
    have hx : ¬ x = c := fun hxc => h.1 hxc.symm
    simp [findChar, hx, ih h.2]

theorem fmbAux_cons_skip (c : Char) (l : List Char) (i : Nat) (d : Int)
    (hq : c ≠ '"') (hb : c ≠ '\\') :
    fmbAux (c :: l) i d true false = fmbAux l (i + 1) d true false := by
  simp only [fmbAux]
  rw [if_neg (by simp), if_neg (fun h => hb h.1), if_neg hq,
    if_neg (fun h => by simpa using h.2), if_neg (fun h => by simpa using h.2)]

theorem fmbAux_skip_string (s : List Char) (hq : '"' ∉ s) (hb : '\\' ∉ s) :
    ∀ (rest : List Char) (i : Nat) (d : Int),
    fmbAux (s ++ rest) i d true false = fmbAux rest (i + s.length) d true false := by
  induction s with
  | nil => intro rest i d; simp
  | cons c cs ih =>
    intro rest i d
    simp only [List.mem_cons, not_or] at hq hb
    rw [List.cons_append,
      fmbAux_cons_skip c (cs ++ rest) i d (fun hc => hq.1 hc.symm)
        (fun hc => hb.1 hc.symm),
      ih hq.2 hb.2 rest (i + 1) d]
    congr 1
    simp
    omega

theorem byteTake_all :
    ∀ (l : List Char), (∀ c ∈ l, c.utf8Size = 1) →
      byteTake l.length l = some l := by
  intro l
  induction l with
  | nil => intro _; rfl
  | cons c cs ih =>
    intro h
    have hc : c.utf8Size = 1 := h c (by simp)
    show byteTake (cs.length + 1) (c :: cs) = some (c :: cs)
    simp only [byteTake, hc]
    rw [if_pos (by omega)]
    simp only [Nat.add_sub_cancel]
    rw [ih (fun x hx => h x (by simp [hx]))]
    rfl

theorem trimList_braceWrap (s : List Char) :
    trimList ('{' :: '"' :: (s ++ ['"', '}'])) =
      '{' :: '"' :: (s ++ ['"', '}']) := by
  unfold trimList
  rw [show List.dropWhile Char.isWhitespace ('{' :: '"' :: (s ++ ['"', '}']))
      = '{' :: '"' :: (s ++ ['"', '}']) from rfl]
  have hrev : ('{' :: '"' :: (s ++ ['"', '}'])).reverse =
      '}' :: '"' :: (s.reverse ++ ['"', '{']) := by
    simp
  rw [hrev]
  rw [show List.dropWhile Char.isWhitespace ('}' :: '"' :: (s.reverse ++ ['"', '{']))
      = '}' :: '"' :: (s.reverse ++ ['"', '{']) from rfl]
  rw [← hrev, List.reverse_reverse]

theorem fmb_braceWrap (s : List Char) (hq : '"' ∉ s) (hb : '\\' ∉ s) :
    find_matching_brace ('{' :: '"' :: (s ++ ['"', '}'])) =
      some (s.length + 3) := by
  show fmbAux ('{' :: '"' :: (s ++ ['"', '}'])) 0 0 false false = _
  have e1 : fmbAux ('{' :: '"' :: (s ++ ['"', '}'])) 0 0 false false
      = fmbAux (s ++ ['"', '}']) 2 1 true false := rfl
  rw [e1, fmbAux_skip_string s hq hb ['"', '}'] 2 1]
  have e2 : fmbAux ['"', '}'] (2 + s.length) 1 true false
      = some (2 + s.length + 1) := rfl
  rw [e2]
  congr 1
  omega

/-! ## C6 and C10 -/

/-- The exact JSON object of claim C6. -/
def c6_obj : String :=
  "\x7b\"display_name\":\"Test\",\"description\":\"A test\",\"category\":\"backend\",\"group_hint\":null,\"confidence\":0.9\x7d"

/-- The C6 object surrounded by prose. -/
def c6_text : String := "Analysis result:\x0a" ++ c6_obj ++ "\x0aHope this helps!"

/-- C6 counterexample: the input "```json abc```" contains no brace at all,
yet `extract_json` returns `Ok("abc")` through the markdown-fence branch
instead of the "no JSON found" error the claim requires for every input
without a brace. -/
theorem c6_fence_counterexample :
    '{' ∉ ("```json abc```".data) ∧
    extract_json ("```json abc```".data) = ExtractResult.ok ("abc".data) := by
  constructor
  · decide
  · decide

set_option maxRecDepth 20000 in
/-- C6 (amended): the concrete object surrounded by prose is extracted
exactly; every input with no opening-brace character *and no "```json" fence*
yields the "no JSON found" error; and a closing brace inside a quoted string
value is not treated as the closing brace of the object, so the full object
is returned (stated for brace-wrapped quoted bodies `s` that are ASCII and
free of quotes and backslashes). -/
theorem c6_extract_json_behavior :
    (extract_json c6_text.data = ExtractResult.ok c6_obj.data) ∧
    (∀ text : List Char, '{' ∉ text → hasPat fence_json text = false →
      extract_json text = ExtractResult.jsonError) ∧
    (∀ s : List Char, '"' ∉ s → '\\' ∉ s → (∀ c ∈ s, c.utf8Size = 1) →
      extract_json ('{' :: '"' :: (s ++ ['"', '}'])) =
        ExtractResult.ok ('{' :: '"' :: (s ++ ['"', '}']))) := by
  refine ⟨by decide, ?_, ?_⟩
  · intro text h1 h2
    have hbr : '{' ∉ trimList text := fun hc => h1 (mem_trimList text _ hc)
    have hfence : hasPat fence_json (trimList text) = false :=
      hasPat_trimList_false h2
    have hh : ¬ (trimList text).head? = some '{' := by
      cases htl : trimList text with
      | nil => simp
      | cons a l =>
        simp only [List.head?, Option.some.injEq]
        intro hcon
        apply hbr
        rw [htl, hcon]
        exact List.mem_cons_self _ _
    unfold extract_json ej_step1
    rw [if_neg hh]
    unfold ej_step2
    rw [findPat_eq_none hfence]
    show ej_step3 (trimList text) = ExtractResult.jsonError
    unfold ej_step3
    rw [findChar_eq_none hbr]
  · intro s hq hb hascii
    unfold extract_json
    rw [trimList_braceWrap s]
    unfold ej_step1
    rw [if_pos (show ('{' :: '"' :: (s ++ ['"', '}'])).head? = some '{' from rfl),
      fmb_braceWrap s hq hb]
    show (match byteTake (s.length + 3 + 1) ('{' :: '"' :: (s ++ ['"', '}'])) with
          | some sl => ExtractResult.ok sl
          | none => ExtractResult.panicked) =
        ExtractResult.ok ('{' :: '"' :: (s ++ ['"', '}']))
    have hlen : s.length + 3 + 1 = ('{' :: '"' :: (s ++ ['"', '}'])).length := by
      simp
    have hone : ∀ c ∈ '{' :: '"' :: (s ++ ['"', '}']), c.utf8Size = 1 := by
      intro c hc
      simp only [List.mem_cons, List.mem_append] at hc
      rcases hc with rfl | rfl | hc | rfl | rfl | h0
      · decide
      · decide
      · exact hascii c hc
      · decide
      · decide
      · exact absurd h0 (List.not_mem_nil c)
    rw [hlen, byteTake_all _ hone]

/-- Witness for C6 at concrete inputs. -/
theorem c6_extract_json_behavior_witness :
    ('{' ∉ ("there is no json here".data) ∧
     hasPat fence_json ("there is no json here".data) = false ∧
     extract_json ("there is no json here".data) = ExtractResult.jsonError) ∧
    ('"' ∉ ("x\x7dy".data) ∧ '\\' ∉ ("x\x7dy".data) ∧
     extract_json ('{' :: '"' :: ("x\x7dy".data ++ ['"', '}'])) =
       ExtractResult.ok ('{' :: '"' :: ("x\x7dy".data ++ ['"', '}']))) := by
  refine ⟨⟨by decide, by decide, ?_⟩, ⟨by decide, by decide, ?_⟩⟩
  · exact c6_extract_json_behavior.2.1 _ (by decide) (by decide)
  · exact c6_extract_json_behavior.2.2 _ (by decide) (by decide) (by decide)

/-- C10 (code bug): `find_matching_brace` returns a character index that
`extract_json` uses as a byte count.  On `\x7béé\x7d` the slice end falls
inside a multi-byte character and the code panics; on `\x7b"é":1\x7d` the
slice is two bytes short and the returned string is not the brace-balanced
object. -/
theorem c10_char_byte_slice :
    extract_json ['{', 'é', 'é', '}'] = ExtractResult.panicked ∧
    extract_json ("\x7b\"é\":1\x7d".data) =
      ExtractResult.ok ("\x7b\"é\":1".data) := by
  constructor
  · decide
  · decide

/-! ## Prompt rendering (AnalysisContext::to_prompt, claim C7) -/

/-- Rust `str::len`: the UTF-8 byte length. -/
def strByteLen (s : String) : Nat :=
  s.data.foldl (fun a c => a + c.utf8Size) 0

/-- The `full_command` truncation of `to_prompt` (types.rs): when the byte
length exceeds 200, slice the first 200 *bytes* and append an ellipsis.
`none` models the Rust panic when byte 200 is not a character boundary. -/
def truncate_full_command (s : String) : Option String :=
  if 200 < strByteLen s then
    (byteTake 200 s.data).map (fun t => String.mk t ++ "...")
  else some s

/-- One prompt line for an optional field: absent fields produce no line. -/
def optLine (label : String) (v : Option String) : List String :=
  match v with
  | none => []
  | some s => [label ++ s]

/-- `AnalysisContext::to_prompt` (types.rs): one labelled line per
populated field, in the fixed source order, joined by newlines.  `none`
models the panic inside the `full_command` truncation. -/
def AnalysisContext.to_prompt (c : AnalysisContext) : Option String :=
  let fullCmdLines : Option (List String) :=
    match c.full_command with
    | none => some []
    | some fc => (truncate_full_command fc).map (fun t => ["Full command: " ++ t])
  fullCmdLines.map (fun fcl =>
    String.intercalate "\x0a" (
      ["Command: " ++ c.command]
      ++ optLine "Port: " (c.port.map toString)
      ++ optLine "Executable: " c.executable_path
      ++ fcl
      ++ optLine "Working directory: " c.working_directory
      ++ optLine "Project: " c.project_name
      ++ optLine "macOS App Name: " c.macos_app_name
      ++ optLine "macOS App Kind: " c.macos_app_kind
      ++ optLine "Docker container: " c.container_name
      ++ optLine "Docker compose service: " c.docker_service
      ++ optLine "Docker compose project: " c.docker_project
      ++ optLine "Docker image: " c.docker_image
      ++ optLine "Container workdir: " c.docker_workdir
      ++ optLine "Container command: " c.docker_cmd
      ++ optLine "Container prefix: " c.container_pfx))

/-- A full command of 199 ASCII characters followed by one two-byte
character: 201 bytes, with byte 200 falling inside the final character. -/
def c7_bad_cmd : String := String.mk (List.replicate 199 'a' ++ ['é'])

/-- A context whose `full_command` triggers the truncation slice. -/
def c7_bad_ctx : AnalysisContext := { ctxNode with full_command := some c7_bad_cmd }

set_option maxRecDepth 20000 in
/-- C7 (code bug): `to_prompt` slices `full_command` at byte 200; on a
command of 201 bytes whose byte 200 is inside a multi-byte character the
slice is not on a character boundary and the Rust code panics (`none`
here), contradicting the claim that `to_prompt` always returns and
truncates to 200 characters. -/
theorem c7_truncation_panic :
    c7_bad_ctx.full_command = some c7_bad_cmd ∧
    strByteLen c7_bad_cmd = 201 ∧
    AnalysisContext.to_prompt c7_bad_ctx = none := by
  refine ⟨rfl, by decide, by decide⟩

end PortKiller
